import Mathlib

set_option maxRecDepth 100000
set_option maxHeartbeats 1000000

/-!
Verification development for the SIP call handler of the claude-phone
repository (src/voice-app/lib/sip-handler.js).  JavaScript strings are
modelled as `List Char`; every string operation the handler uses
(`trim`, `toLowerCase`, `includes`, `startsWith`, `endsWith`, `split`,
`replace`, and the three marked-line regular expressions of
`extractVoiceLine`) is given an explicit executable model below, and the
conversation loop is modelled as a step function over per-turn events.
-/

namespace ClaudePhone

/-! ## JavaScript string primitives -/

/-- Whitespace class of the JavaScript regex `\s` (also the character set
removed by `String.prototype.trim`): space, tab, vertical tab, form feed,
carriage return, newline, and the Unicode space separators. -/
def isJsWs (c : Char) : Bool :=
  let n := c.toNat
  n == 9 || n == 10 || n == 11 || n == 12 || n == 13 || n == 32 ||
  n == 0xa0 || n == 0x1680 || (0x2000 ≤ n && n ≤ 0x200a) ||
  n == 0x2028 || n == 0x2029 || n == 0x202f || n == 0x205f ||
  n == 0x3000 || n == 0xfeff

/-- Line terminators: the characters the JavaScript regex `.` never matches
(newline, carriage return, line separator, paragraph separator). -/
def isLineTerm (c : Char) : Bool :=
  c == '\n' || c == '\r' || c.toNat == 0x2028 || c.toNat == 0x2029

/-- ASCII lower-casing of one character, modelling
`String.prototype.toLowerCase` on the ASCII range (every literal the handler
compares against is ASCII). -/
def jsToLowerChar (c : Char) : Char :=
  if 'A' ≤ c && c ≤ 'Z' then Char.ofNat (c.toNat + 32) else c

/-- Model of `String.prototype.toLowerCase`. -/
def jsToLower (s : List Char) : List Char := s.map jsToLowerChar

/-- Model of `String.prototype.trim`. -/
def jsTrim (s : List Char) : List Char :=
  ((s.dropWhile isJsWs).reverse.dropWhile isJsWs).reverse

/-- Model of `String.prototype.startsWith`. -/
def startsWith : List Char → List Char → Bool
  | [], _ => true
  | _ :: _, [] => false
  | a :: p, b :: s => a == b && startsWith p s

/-- Model of `String.prototype.includes` (substring occurrence). -/
def containsSeq (p : List Char) : List Char → Bool
  | [] => startsWith p []
  | c :: rest => startsWith p (c :: rest) || containsSeq p rest

/-- Model of `String.prototype.endsWith`. -/
def endsWith (p s : List Char) : Bool :=
  startsWith p.reverse s.reverse

/-- Cons a character onto the first piece of a split result (helper for the
split functions below). -/
def consHead (c : Char) : List (List Char) → List (List Char)
  | [] => [[c]]
  | l :: ls => (c :: l) :: ls

/-- Model of the JavaScript `split(/\s+/)`: maximal whitespace runs separate
the pieces; a leading or trailing run contributes an empty piece, and the
empty string yields the one-element list `[""]` (a JavaScript split never
returns an empty array). -/
def splitWs : List Char → List (List Char)
  | [] => [[]]
  | c :: rest =>
    if isJsWs c then
      match rest with
      | [] => [[], []]
      | d :: _ => if isJsWs d then splitWs rest else [] :: splitWs rest
    else consHead c (splitWs rest)

/-- Model of `Array.prototype.join(" ")`. -/
def joinSpace : List (List Char) → List Char
  | [] => []
  | [l] => l
  | l :: l2 :: ls => l ++ ' ' :: joinSpace (l2 :: ls)

/-! ## Goodbye detection (isGoodbye, sip-handler.js lines 60-67) -/

/-- The goodbye phrase list of `isGoodbye`. -/
def goodbyePhrases : List (List Char) :=
  ["goodbye".toList, "good bye".toList, "bye".toList, "hang up".toList,
   "end call".toList, "that's all".toList, "thats all".toList]

/-- Model of `isGoodbye` (sip-handler.js lines 60-67): lower-case and trim the
transcript, then accept if some phrase is an exact match, occurs preceded by a
space anywhere (`includes(' ' + phrase)`), starts the text followed by a space,
or ends the text preceded by a space. -/
def isGoodbye (transcript : List Char) : Bool :=
  let lower := jsTrim (jsToLower transcript)
  goodbyePhrases.any fun phrase =>
    lower == phrase || containsSeq (' ' :: phrase) lower ||
    startsWith (phrase ++ [' ']) lower || endsWith (' ' :: phrase) lower

/-- The code's occurrence condition, stated declaratively: the phrase occurs
with a separator (or the start of the text) on its left, and a separator (or
the end of the text) on its right only when the occurrence is at the very
start. -/
def sepLeftOnly (p lower : List Char) : Prop :=
  ∃ u v, lower = u ++ p ++ v ∧
    ((u = [] ∧ (v = [] ∨ ∃ v2, v = ' ' :: v2)) ∨ ∃ u2, u = u2 ++ [' '])

/-- The claim's occurrence condition: the phrase occurs bounded by a separator
(or the ends of the text) on BOTH sides — never as a bare substring of a
longer word. -/
def sepBothSides (p lower : List Char) : Prop :=
  ∃ u v, lower = u ++ p ++ v ∧ (u = [] ∨ ∃ u2, u = u2 ++ [' '])
    ∧ (v = [] ∨ ∃ v2, v = ' ' :: v2)

/-- Decidable scan equivalent to `sepBothSides` (checks each split point). -/
def sepBothSidesB (p lower : List Char) : Bool :=
  (List.range (lower.length + 1)).any fun i =>
    startsWith p (lower.drop i)
      && (decide (i = 0) || decide ((lower.take i).getLast? = some ' '))
      && (decide (lower.length ≤ i + p.length)
          || decide ((lower.drop (i + p.length)).head? = some ' '))

/-! ## Voice-line extraction (extractVoiceLine, sip-handler.js lines 73-105) -/

/-- The markup characters deleted by priority 4 of `extractVoiceLine`
(`replace(/[*#`]/g, "")`). -/
def isMarkupChar (c : Char) : Bool := c == '*' || c == '#' || c == '\x60'

/-- Helper for the `replace(/\[.*?\]/g, '')` model: from the characters after
an opening bracket, the remainder after the first closing bracket, provided no
line terminator comes first (the regex `.` cannot cross one). -/
def breakAtClose : List Char → Option (List Char)
  | [] => none
  | c :: rest =>
    if c == ']' then some rest
    else if isLineTerm c then none
    else breakAtClose rest

/-- Fuelled worker for `removeBrackets` (the fuel is the input length, which
bounds the number of steps). -/
def removeBracketsAux : Nat → List Char → List Char
  | 0, _ => []
  | _, [] => []
  | fuel + 1, c :: rest =>
    if c == '[' then
      match breakAtClose rest with
      | some after => removeBracketsAux fuel after
      | none => c :: removeBracketsAux fuel rest
    else c :: removeBracketsAux fuel rest

/-- Model of `replace(/\[.*?\]/g, '')`: delete every bracketed aside that
closes on the same line. -/
def removeBrackets (s : List Char) : List Char :=
  removeBracketsAux s.length s

/-- The cleanup chain applied to a captured line:
`.trim().replace(/\*+/g, '').replace(/\[.*?\]/g, '').trim()`. -/
def cleanupVoiceText (t : List Char) : List Char :=
  jsTrim (removeBrackets ((jsTrim t).filter (fun c => c != '*')))

/-- Strip an exact literal from the front of the input (one regex literal
character at a time). -/
def dropLit : List Char → List Char → Option (List Char)
  | [], s => some s
  | _ :: _, [] => none
  | a :: p, b :: s => if a == b then dropLit p s else none

/-- Strip a literal case-insensitively (the regexes carry the `i` flag). -/
def dropLitCI : List Char → List Char → Option (List Char)
  | [], s => some s
  | _ :: _, [] => none
  | a :: p, b :: s => if jsToLowerChar a == jsToLowerChar b then dropLitCI p s else none

/-- The speaking-head emoji 🗣️ (U+1F5E3 followed by the variation selector
U+FE0F), the marker of the VOICE_RESPONSE and CUSTOM COMPLETED lines. -/
def emojiSpeak : List Char := [Char.ofNat 0x1F5E3, Char.ofNat 0xFE0F]

/-- The direct-hit emoji 🎯 (U+1F3AF), the marker of the COMPLETED line. -/
def emojiTarget : List Char := [Char.ofNat 0x1F3AF]

def voiceLit : List Char := "VOICE_RESPONSE:".toList
def customLit : List Char := "CUSTOM".toList
def completedLit : List Char := "COMPLETED:".toList

/-- Capture of `\s*([^\n]+)` (priority 1): skip the maximal whitespace run;
if characters remain, capture up to the next newline.  When the whitespace
run reaches the end of the input the regex engine backtracks and captures the
last non-newline whitespace character, if any (the later `trim` erases it). -/
def captureP1 (tail : List Char) : Option (List Char) :=
  let r := tail.dropWhile isJsWs
  if r.isEmpty then
    match (tail.filter (fun c => c != '\n')).getLast? with
    | some c => some [c]
    | none => none
  else
    some (r.takeWhile (fun c => c != '\n'))

/-- Backtracking capture of `\s*(.+?)(?:\n|$)` with the `m` flag when the
whitespace run reached the end of the input.  Multiline `$` matches at the end
of the input and immediately before any line terminator, so with the greedy
`\s*` giving back characters from the right, the engine succeeds exactly when
the run contains a non-line-terminator character and captures the last one
(everything after it is a line terminator or the end; the later `trim` erases
the captured whitespace anyway). -/
def wsCapture (w : List Char) : List Char :=
  match (w.filter (fun c => !isLineTerm c)).getLast? with
  | some c => [c]
  | none => []

/-- Capture of `\s*(.+?)(?:\n|$)` with the `m` flag (priorities 2 and 3):
skip the maximal whitespace run; the lazy group then extends over
non-line-terminator characters and stops at the first position where a
literal newline or the multiline `$` matches.  Since `$` with the `m` flag
matches before every line terminator and at the end, that first stop is
always the end of the non-line-terminator run, so the capture is exactly that
run. -/
def captureP23 (tail : List Char) : Option (List Char) :=
  let r := tail.dropWhile isJsWs
  match r with
  | [] => if (wsCapture tail).isEmpty then none else some (wsCapture tail)
  | _ => some (r.takeWhile (fun c => !isLineTerm c))

/-- Try the regex `🗣️\s*VOICE_RESPONSE:\s*([^\n]+)` (flags `im`) at one
position. -/
def matchVoiceAt (s : List Char) : Option (List Char) :=
  match dropLit emojiSpeak s with
  | none => none
  | some s1 =>
    match dropLitCI voiceLit (s1.dropWhile isJsWs) with
    | none => none
    | some s2 => captureP1 s2

/-- Try the regex `🗣️\s*CUSTOM\s+COMPLETED:\s*(.+?)(?:\n|$)` (flags `im`) at
one position. -/
def matchCustomAt (s : List Char) : Option (List Char) :=
  match dropLit emojiSpeak s with
  | none => none
  | some s1 =>
    match dropLitCI customLit (s1.dropWhile isJsWs) with
    | none => none
    | some s2 =>
      match s2 with
      | [] => none
      | c :: _ =>
        if isJsWs c then
          match dropLitCI completedLit (s2.dropWhile isJsWs) with
          | none => none
          | some s3 => captureP23 s3
        else none

/-- Try the regex `🎯\s*COMPLETED:\s*(.+?)(?:\n|$)` (flags `im`) at one
position. -/
def matchCompletedAt (s : List Char) : Option (List Char) :=
  match dropLit emojiTarget s with
  | none => none
  | some s1 =>
    match dropLitCI completedLit (s1.dropWhile isJsWs) with
    | none => none
    | some s2 => captureP23 s2

/-- Leftmost match: try the matcher at every position, left to right, as the
JavaScript engine does for `String.prototype.match` without the `g` flag. -/
def scanMatch (f : List Char → Option (List Char)) : List Char → Option (List Char)
  | [] => f []
  | c :: rest =>
    match f (c :: rest) with
    | some r => some r
    | none => scanMatch f rest

/-- Priorities 4 and 5 of `extractVoiceLine` (lines 98-104): the first 120
whitespace-delimited tokens of the raw text with markup characters stripped,
joined by single spaces; the 500-character fallback runs only if the token
array were empty. -/
def fallbackWords (response : List Char) : List Char :=
  let words := (splitWs (jsTrim (response.filter (fun c => !isMarkupChar c)))).take 120
  if words.length > 0 then joinSpace words
  else jsTrim (response.take 500)

/-- Priority 3 of `extractVoiceLine` (lines 93-96): a COMPLETED match is
returned unconditionally after cleanup. -/
def tryCompleted (response : List Char) : List Char :=
  match scanMatch matchCompletedAt response with
  | some cap => cleanupVoiceText cap
  | none => fallbackWords response

/-- Priority 2 of `extractVoiceLine` (lines 84-90): a CUSTOM COMPLETED match
is accepted when non-empty after cleanup and at most 50 words. -/
def tryCustom (response : List Char) : List Char :=
  match scanMatch matchCustomAt response with
  | some cap =>
    let text := cleanupVoiceText cap
    if text ≠ [] ∧ (splitWs text).length ≤ 50 then text else tryCompleted response
  | none => tryCompleted response

/-- Model of `extractVoiceLine` (sip-handler.js lines 73-105).  Priority 1: a
VOICE_RESPONSE match is accepted when non-empty after cleanup and at most 60
words; otherwise control falls through the remaining priorities. -/
def extractVoiceLine (response : List Char) : List Char :=
  match scanMatch matchVoiceAt response with
  | some cap =>
    let text := cleanupVoiceText cap
    if text ≠ [] ∧ (splitWs text).length ≤ 60 then text else tryCustom response
  | none => tryCustom response

/-- Whether priority 1 produces an accepted value. -/
def voiceAccepted (response : List Char) : Bool :=
  match scanMatch matchVoiceAt response with
  | some cap =>
    if cleanupVoiceText cap ≠ [] ∧ (splitWs (cleanupVoiceText cap)).length ≤ 60
    then true else false
  | none => false

/-- Whether priority 2 produces an accepted value. -/
def customAccepted (response : List Char) : Bool :=
  match scanMatch matchCustomAt response with
  | some cap =>
    if cleanupVoiceText cap ≠ [] ∧ (splitWs (cleanupVoiceText cap)).length ≤ 50
    then true else false
  | none => false

/-- The concrete response of the extraction claim. -/
def responseC6 : List Char :=
  emojiSpeak ++ " VOICE_RESPONSE: It's sunny today.\n".toList
    ++ emojiTarget ++ " COMPLETED: gave weather".toList

/-! ## SDP sanitizer (stripVideoFromSdp, sip-handler.js lines 334-362) -/

/-- Model of `sdp.split('\r\n')`. -/
def splitCRLF : List Char → List (List Char)
  | [] => [[]]
  | [c] => [[c]]
  | c :: d :: rest =>
    if c == '\r' && d == '\n' then [] :: splitCRLF rest
    else consHead c (splitCRLF (d :: rest))

/-- Model of `result.join('\r\n')`. -/
def joinCRLF : List (List Char) → List Char
  | [] => []
  | [l] => l
  | l :: l2 :: ls => l ++ '\r' :: '\n' :: joinCRLF (l2 :: ls)

def mVideoT : List Char := "m=video".toList
def mEqT : List Char := "m=".toList

/-- The for-loop of `stripVideoFromSdp` over the split lines, carrying the
`inVideoSection` flag: an `m=video` header starts the video section and is
dropped; any other `m=` header ends it and is kept; other lines are dropped
inside the video section and kept outside it. -/
def stripVideoLines : Bool → List (List Char) → List (List Char)
  | _, [] => []
  | inVideo, line :: rest =>
    if startsWith mVideoT line then stripVideoLines true rest
    else if startsWith mEqT line then line :: stripVideoLines false rest
    else if inVideo then stripVideoLines inVideo rest
    else line :: stripVideoLines inVideo rest

/-- Model of `stripVideoFromSdp` on a non-null session description
(sip-handler.js lines 334-362): split on CRLF, drop the video section, rejoin
with CRLF. -/
def stripVideoFromSdp (sdp : List Char) : List Char :=
  joinCRLF (stripVideoLines false (splitCRLF sdp))

/-- Model of `stripVideoFromSdp` including its falsy guard
(`if (!sdp) return sdp`): `none` models a null/undefined argument and an empty
list models the empty string; both are returned unchanged without parsing. -/
def stripVideoFromSdpOpt : Option (List Char) → Option (List Char)
  | none => none
  | some sdp => if sdp = [] then some sdp else some (stripVideoFromSdp sdp)

/-- No carriage return immediately followed by a newline (the separator the
split consumes); lines produced by `splitCRLF` satisfy this. -/
def crlfFree : List Char → Bool
  | [] => true
  | [_] => true
  | c :: d :: rest => !(c == '\r' && d == '\n') && crlfFree (d :: rest)

/-! ## Device resolution (handleInvite, sip-handler.js lines 370-396) -/

/-- A device profile.  Only the identity matters for the routing claim; the
display name stands for the whole record. -/
structure DeviceProfile where
  name : String
deriving DecidableEq

/-- Interface of the device registry collaborator (its module is outside the
provided sources).  Modelled from the spec: `get` looks a profile up by dialed
identifier, `getDefault` is total because a DEFAULT profile always exists
(spec section 3), and `allDevices` lists the configured profiles in
registration order (the object key order of `getAllDevices()`). -/
structure DeviceRegistry where
  get : String → Option DeviceProfile
  getDefault : DeviceProfile
  allDevices : List (String × DeviceProfile)

/-- The device-resolution branching of `handleInvite` (sip-handler.js lines
374-396): exact registry match on the dialed extension, else the DEFAULT
profile; with no extension at all, the first configured profile, else the
DEFAULT profile.  Total by construction — resolution never fails. -/
def resolveDevice (reg : DeviceRegistry) (dialedExt : Option String) : DeviceProfile :=
  match dialedExt with
  | some ext =>
    match reg.get ext with
    | some cfg => cfg
    | none => reg.getDefault
  | none =>
    match reg.allDevices with
    | [] => reg.getDefault
    | (_, cfg) :: _ => cfg

/-- A concrete registry used by the resolution witness. -/
def demoProfile : DeviceProfile := ⟨"Claude"⟩

/-- A concrete registry with one configured device and a Morpheus default. -/
def demoRegistry : DeviceRegistry where
  get := fun e => if e = "9000" then some demoProfile else none
  getDefault := ⟨"Morpheus"⟩
  allDevices := [("9000", demoProfile)]

/-! ## Conversation loop (conversationLoop, sip-handler.js lines 111-328) -/

def didntHearLine : List Char := "I didn't hear anything. Are you still there?".toList
def clarifyLine : List Char := "Sorry, I didn't catch that. Could you repeat?".toList
def farewellLine : List Char := "Goodbye! Call again anytime.".toList
def maxTurnsLine : List Char := "We've been talking for a while. Goodbye!".toList

/-- The turn cap of the loop (`const MAX_TURNS = 20`). -/
def MAX_TURNS : Nat := 20

/-- What one loop iteration observes from its collaborators: either the 30 s
utterance wait times out (the thrown timeout is caught inside the iteration,
lines 185-190), or an utterance arrives and transcription yields the given
transcript, in which case the turn's query returns the given raw response. -/
inductive TurnEvent
  | timeout
  | utterance (transcript : List Char) (claudeResponse : List Char)

/-- Observable actions of one call, in program order.  Cleanup actions carry
whether the attempted step succeeded (the source swallows each step's failure
in its own try/catch). -/
inductive Action
  | playGreeting
  | playReadyBeep
  | captureOn
  | waitUtterance
  | captureOff
  | playGotItBeep
  | transcribe
  | speakThinking
  | playHoldMusic
  | queryClaude
  | stopHoldMusic
  | speak (line : List Char)
  | speakApology
  | cleanupEndSession (ok : Bool)
  | cleanupForkStop (ok : Bool)
  | cleanupWebhook (ok : Bool)
  | cleanupDestroy (ok : Bool)
deriving DecidableEq

inductive TurnOutcome
  | continueLoop
  | goodbyeBreak
deriving DecidableEq

/-- One iteration of the while loop (lines 170-268), as its action trace and
how it ends.  A timeout leaves the iteration through the `!utterance` branch;
a transcript shorter than two characters after trimming leaves through the
clarification branch; a goodbye breaks out of the loop after the farewell;
otherwise the turn queries the bridge and plays the extracted voice line. -/
def turnStep : TurnEvent → TurnOutcome × List Action
  | .timeout =>
    (.continueLoop,
     [.playReadyBeep, .captureOn, .waitUtterance, .captureOff, .speak didntHearLine])
  | .utterance transcript response =>
    let pre : List Action :=
      [.playReadyBeep, .captureOn, .waitUtterance, .captureOff, .playGotItBeep, .transcribe]
    if (jsTrim transcript).length < 2 then
      (.continueLoop, pre ++ [.speak clarifyLine])
    else if isGoodbye transcript then
      (.goodbyeBreak, pre ++ [.speak farewellLine])
    else
      (.continueLoop,
       pre ++ [.speakThinking, .playHoldMusic, .queryClaude, .stopHoldMusic,
               .speak (extractVoiceLine response)])

/-- The while loop: `fuel` is `MAX_TURNS` minus the turns already taken, `tc`
the turn counter, incremented once at the start of every iteration.  Returns
the final counter, whether a goodbye broke the loop, and the concatenated
action trace. -/
def runTurns (events : Nat → TurnEvent) : Nat → Nat → Nat × Bool × List Action
  | 0, tc => (tc, false, [])
  | fuel + 1, tc =>
    let step := turnStep (events tc)
    match step.1 with
    | .goodbyeBreak => (tc + 1, true, step.2)
    | .continueLoop =>
      let rest := runTurns events fuel (tc + 1)
      (rest.1, rest.2.1, step.2 ++ rest.2.2)

structure LoopResult where
  turnCount : Nat
  brokeByGoodbye : Bool
  actions : List Action
deriving DecidableEq

/-- The conversation loop under non-throwing collaborators (the error exit is
modelled separately in `fullCall`): greeting, then the turn loop, then the
fixed closing line whenever the counter reached `MAX_TURNS`
(`if (turnCount >= MAX_TURNS)`, lines 270-273). -/
def conversationLoopModel (events : Nat → TurnEvent) : LoopResult :=
  let r := runTurns events MAX_TURNS 0
  { turnCount := r.1
    brokeByGoodbye := r.2.1
    actions := Action.playGreeting ::
      (r.2.2 ++ (if MAX_TURNS ≤ r.1 then [Action.speak maxTurnsLine] else [])) }

/-- Termination reasons are labels of the two loop exits (the source has no
explicit reason value): the spec names the goodbye break `CALLER_GOODBYE` and
the counter exit `MAX_TURNS`. -/
inductive TermReason
  | CALLER_GOODBYE
  | MAX_TURNS
deriving DecidableEq

def loopReason (r : LoopResult) : TermReason :=
  if r.brokeByGoodbye then .CALLER_GOODBYE else .MAX_TURNS

/-- Event stream whose first nineteen turns are ordinary exchanges and whose
twentieth is a goodbye. -/
def evGoodbyeAt20 : Nat → TurnEvent :=
  fun i => if i < 19 then TurnEvent.utterance "please continue".toList []
           else TurnEvent.utterance "bye".toList []

/-- Per-step failure switches for the cleanup block (each step of the finally
block sits in its own try/catch, lines 282-327). -/
structure CleanupFails where
  endSessionFails : Bool
  forkStopFails : Bool
  webhookFails : Bool
  destroyFails : Bool

/-- How the try body of `conversationLoop` exits: it ran to completion, a
collaborator threw before the audio fork was started, or a collaborator threw
during the loop after the given number of completed iterations. -/
inductive RunMode
  | ok
  | errBeforeFork
  | errInLoop (afterIterations : Nat)

/-- Whether the audio fork had been started when the body exited
(`forkRunning` is set right after `forkAudioStart`, line 161). -/
def forkStarted : RunMode → Bool
  | .errBeforeFork => false
  | _ => true

/-- The finally block (lines 282-327): release the query session, stop the
audio fork if it was started, flush the transcript to the webhook, destroy
the dialog — each attempted unconditionally, each failure swallowed. -/
def cleanupActions (forkRunning : Bool) (cf : CleanupFails) : List Action :=
  [.cleanupEndSession (!cf.endSessionFails)]
    ++ (if forkRunning then [.cleanupForkStop (!cf.forkStopFails)] else [])
    ++ [.cleanupWebhook (!cf.webhookFails), .cleanupDestroy (!cf.destroyFails)]

/-- The try body plus the catch handler (lines 145-281): on a normal run the
greeting, the loop and the possible closing line; on an early error only the
apology (no session exists yet, so no capture toggle); on a loop error the
partial trace, then the catch's capture disable and apology. -/
def callBody (events : Nat → TurnEvent) : RunMode → List Action
  | .ok =>
    let r := runTurns events MAX_TURNS 0
    Action.playGreeting ::
      (r.2.2 ++ (if MAX_TURNS ≤ r.1 then [Action.speak maxTurnsLine] else []))
  | .errBeforeFork => [Action.speakApology]
  | .errInLoop n =>
    Action.playGreeting ::
      ((runTurns events (min n MAX_TURNS) 0).2.2
        ++ [Action.captureOff, Action.speakApology])

/-- One whole execution of `conversationLoop`: the body (however it exits)
followed by the finally block, exactly once. -/
def fullCall (events : Nat → TurnEvent) (mode : RunMode) (cf : CleanupFails) :
    List Action :=
  callBody events mode ++ cleanupActions (forkStarted mode) cf

def isEndSessionStep : Action → Bool
  | .cleanupEndSession _ => true
  | _ => false

def isForkStopStep : Action → Bool
  | .cleanupForkStop _ => true
  | _ => false

def isWebhookStep : Action → Bool
  | .cleanupWebhook _ => true
  | _ => false

def isDestroyStep : Action → Bool
  | .cleanupDestroy _ => true
  | _ => false

def isCleanupAction : Action → Bool
  | .cleanupEndSession _ => true
  | .cleanupForkStop _ => true
  | .cleanupWebhook _ => true
  | .cleanupDestroy _ => true
  | _ => false

/-- Capture-enabled flag after folding a trace (toggled only by the capture
actions). -/
def capAfter : Bool → List Action → Bool
  | cap, [] => cap
  | _, Action.captureOn :: rest => capAfter true rest
  | _, Action.captureOff :: rest => capAfter false rest
  | cap, _ :: rest => capAfter cap rest

/-- Whether every transcription in the trace happens while capture is
disabled, folding the capture flag left to right. -/
def transcribeSafe : Bool → List Action → Bool
  | _, [] => true
  | _, Action.captureOn :: rest => transcribeSafe true rest
  | _, Action.captureOff :: rest => transcribeSafe false rest
  | cap, Action.transcribe :: rest => !cap && transcribeSafe cap rest
  | cap, _ :: rest => transcribeSafe cap rest

/-! ## Characterizations of the string primitives -/

theorem startsWith_iff (p s : List Char) : startsWith p s = true ↔ ∃ t, s = p ++ t := by
  induction p generalizing s with
  | nil => simp [startsWith]
  | cons a p2 ih =>
    cases s with
    | nil => simp [startsWith]
    | cons b s2 =>
      simp only [startsWith, Bool.and_eq_true, beq_iff_eq, ih, List.cons_append,
        List.cons.injEq]
      constructor
      · rintro ⟨hab, t, ht⟩
        exact ⟨t, hab.symm, ht⟩
      · rintro ⟨t, hab, ht⟩
        exact ⟨hab.symm, t, ht⟩

theorem containsSeq_iff (p s : List Char) :
    containsSeq p s = true ↔ ∃ u v, s = u ++ p ++ v := by
  induction s with
  | nil =>
    simp only [containsSeq, startsWith_iff]
    constructor
    · rintro ⟨t, ht⟩
      exact ⟨[], t, by simpa using ht⟩
    · rintro ⟨u, v, huv⟩
      rcases List.append_eq_nil.mp ((List.append_assoc u p v ▸ huv).symm) with ⟨hu, hpv⟩
      rcases List.append_eq_nil.mp hpv with ⟨hp, hv⟩
      exact ⟨[], by simp [hp]⟩
  | cons c rest ih =>
    simp only [containsSeq, Bool.or_eq_true, startsWith_iff, ih]
    constructor
    · rintro (⟨t, ht⟩ | ⟨u, v, huv⟩)
      · exact ⟨[], t, by simpa using ht⟩
      · exact ⟨c :: u, v, by simp [huv]⟩
    · rintro ⟨u, v, huv⟩
      cases u with
      | nil => exact Or.inl ⟨v, by simpa using huv⟩
      | cons d u2 =>
        have hcd : c = d ∧ rest = u2 ++ p ++ v := by
          have := huv
          simp only [List.cons_append, List.cons.injEq] at this
          exact this
        exact Or.inr ⟨u2, v, hcd.2⟩

theorem endsWith_iff (p s : List Char) : endsWith p s = true ↔ ∃ u, s = u ++ p := by
  simp only [endsWith, startsWith_iff]
  constructor
  · rintro ⟨t, ht⟩
    refine ⟨t.reverse, ?_⟩
    have := congrArg List.reverse ht
    simpa using this
  · rintro ⟨u, hu⟩
    exact ⟨u.reverse, by simp [hu]⟩

theorem startsWith_append_left (p q s : List Char)
    (h : startsWith (p ++ q) s = true) : startsWith p s = true := by
  induction p generalizing s with
  | nil => rfl
  | cons a p2 ih =>
    cases s with
    | nil => simp [startsWith] at h
    | cons b s2 =>
      simp only [List.cons_append, startsWith, Bool.and_eq_true] at h ⊢
      exact ⟨h.1, ih s2 h.2⟩

/-! ## Goodbye detection lemmas -/

theorem goodbyeCheck_iff (p lower : List Char) :
    (lower == p || containsSeq (' ' :: p) lower ||
      startsWith (p ++ [' ']) lower || endsWith (' ' :: p) lower) = true
      ↔ sepLeftOnly p lower := by
  simp only [Bool.or_eq_true, beq_iff_eq, containsSeq_iff, startsWith_iff, endsWith_iff,
    sepLeftOnly]
  constructor
  · rintro (((he | ⟨u, v, huv⟩) | ⟨t, ht⟩) | ⟨u, hu⟩)
    · exact ⟨[], [], by simp [he], Or.inl ⟨rfl, Or.inl rfl⟩⟩
    · exact ⟨u ++ [' '], v, by simp [huv], Or.inr ⟨u, rfl⟩⟩
    · exact ⟨[], ' ' :: t, by simp [ht], Or.inl ⟨rfl, Or.inr ⟨t, rfl⟩⟩⟩
    · exact ⟨u ++ [' '], [], by simp [hu], Or.inr ⟨u, rfl⟩⟩
  · rintro ⟨u, v, huv, (⟨hu, (hv | ⟨v2, hv⟩)⟩ | ⟨u2, hu⟩)⟩
    · subst hu; subst hv
      exact Or.inl (Or.inl (Or.inl (by simpa using huv)))
    · subst hu; subst hv
      exact Or.inl (Or.inr ⟨v2, by simpa using huv⟩)
    · subst hu
      exact Or.inl (Or.inl (Or.inr ⟨u2, v, by simpa [List.append_assoc] using huv⟩))

/-- One direction of the equivalence between the scan `sepBothSidesB` and the
declarative `sepBothSides` (the direction the counterexample needs: if no
split point passes the scan, no bounded decomposition exists). -/
theorem sepBothSides_implies_scan (p lower : List Char)
    (h : sepBothSides p lower) : sepBothSidesB p lower = true := by
  obtain ⟨u, v, huv, hl, hr⟩ := h
  simp only [sepBothSidesB, List.any_eq_true, List.mem_range]
  refine ⟨u.length, ?_, ?_⟩
  · have : u.length ≤ lower.length := by
      rw [huv]; simp only [List.length_append]; omega
    omega
  · have hdrop : lower.drop u.length = p ++ v := by
      rw [huv, List.append_assoc, List.drop_left]
    have htake : lower.take u.length = u := by
      rw [huv, List.append_assoc, List.take_left]
    have hdrop2 : lower.drop (u.length + p.length) = v := by
      rw [huv, List.append_assoc, ← List.length_append u p]
      rw [← List.append_assoc, List.drop_left]
    simp only [Bool.and_eq_true, Bool.or_eq_true, decide_eq_true_eq]
    refine ⟨⟨?_, ?_⟩, ?_⟩
    · rw [hdrop, startsWith_iff]
      exact ⟨v, rfl⟩
    · rcases hl with hu | ⟨u2, hu⟩
      · exact Or.inl (by simp [hu])
      · refine Or.inr ?_
        rw [htake, hu]
        simp
    · rcases hr with hv | ⟨v2, hv⟩
      · refine Or.inl ?_
        rw [huv, hv]
        simp [List.length_append]
      · refine Or.inr ?_
        rw [hdrop2, hv]
        rfl

/-! ## SDP sanitizer lemmas -/

theorem splitCRLF_ne_nil (s : List Char) : splitCRLF s ≠ [] := by
  induction s using splitCRLF.induct with
  | case1 => simp [splitCRLF]
  | case2 c => simp [splitCRLF]
  | case3 c d rest h ih => simp [splitCRLF, h]
  | case4 c d rest h ih =>
    simp only [splitCRLF, h, if_neg]
    cases hs : splitCRLF (d :: rest) <;> simp [consHead, hs]

theorem splitCRLF_head (s : List Char) (d : Char) (l : List Char) (ls : List (List Char))
    (h : splitCRLF s = (d :: l) :: ls) : ∃ t, s = d :: t := by
  match s with
  | [] => simp [splitCRLF] at h
  | [c] =>
    simp only [splitCRLF, List.cons.injEq] at h
    exact ⟨[], by rw [h.1.1]⟩
  | c :: e :: rest =>
    simp only [splitCRLF] at h
    by_cases hg : (c == '\r' && e == '\n') = true
    · rw [if_pos hg] at h
      simp at h
    · rw [if_neg hg] at h
      cases hs : splitCRLF (e :: rest) with
      | nil => exact absurd hs (splitCRLF_ne_nil _)
      | cons m ms =>
        rw [hs] at h
        simp only [consHead, List.cons.injEq] at h
        exact ⟨e :: rest, by rw [h.1.1]⟩

theorem crlfFree_splitCRLF (s : List Char) : ∀ l ∈ splitCRLF s, crlfFree l = true := by
  induction s using splitCRLF.induct with
  | case1 => intro l hl; simp [splitCRLF] at hl; simp [hl, crlfFree]
  | case2 c => intro l hl; simp [splitCRLF] at hl; simp [hl, crlfFree]
  | case3 c d rest h ih =>
    intro l hl
    simp only [splitCRLF, if_pos h, List.mem_cons] at hl
    rcases hl with h1 | h1
    · simp [h1, crlfFree]
    · exact ih l h1
  | case4 c d rest h ih =>
    intro l hl
    simp only [splitCRLF, if_neg h] at hl
    cases hs : splitCRLF (d :: rest) with
    | nil => exact absurd hs (splitCRLF_ne_nil _)
    | cons m ms =>
      rw [hs] at hl
      simp only [consHead, List.mem_cons] at hl
      rcases hl with h1 | h1
      · subst h1
        have hm : crlfFree m = true := ih m (hs ▸ List.mem_cons_self m ms)
        cases m with
        | nil => simp [crlfFree]
        | cons e es =>
          obtain ⟨t, ht⟩ := splitCRLF_head _ _ _ _ hs
          have hde : d = e := (List.cons.injEq d rest e t ▸ ht).1
          simp only [crlfFree, hm, Bool.and_true, Bool.not_eq_true']
          subst hde
          exact Bool.eq_false_iff.mpr h
      · exact ih l (hs ▸ List.mem_cons_of_mem m h1)

theorem splitCRLF_self (l : List Char) (h : crlfFree l = true) : splitCRLF l = [l] := by
  induction l with
  | nil => simp [splitCRLF]
  | cons c rest ih =>
    cases rest with
    | nil => simp [splitCRLF]
    | cons d ds =>
      simp only [crlfFree, Bool.and_eq_true, Bool.not_eq_true'] at h
      simp only [splitCRLF, h.1, Bool.false_eq_true, if_false]
      rw [ih h.2]
      simp [consHead]

theorem splitCRLF_append (l t : List Char) (h : crlfFree l = true) :
    splitCRLF (l ++ '\r' :: '\n' :: t) = l :: splitCRLF t := by
  induction l with
  | nil =>
    simp only [List.nil_append, splitCRLF]
    rw [if_pos (by decide)]
  | cons c rest ih =>
    cases rest with
    | nil =>
      show splitCRLF (c :: '\r' :: '\n' :: t) = [c] :: splitCRLF t
      have g1 : (c == '\r' && '\r' == '\n') = false := by simp
      simp only [splitCRLF, g1, Bool.false_eq_true, if_false]
      rw [if_pos (by decide)]
      simp [consHead]
    | cons d ds =>
      simp only [crlfFree, Bool.and_eq_true, Bool.not_eq_true'] at h
      have := ih h.2
      simp only [List.cons_append] at this ⊢
      simp only [splitCRLF, h.1, Bool.false_eq_true, if_false]
      rw [this]
      simp [consHead]

theorem splitCRLF_joinCRLF (parts : List (List Char)) (hne : parts ≠ [])
    (hfree : ∀ p ∈ parts, crlfFree p = true) :
    splitCRLF (joinCRLF parts) = parts := by
  induction parts with
  | nil => exact absurd rfl hne
  | cons l ls ih =>
    cases ls with
    | nil =>
      simp only [joinCRLF]
      exact splitCRLF_self l (hfree l (List.mem_cons_self _ _))
    | cons l2 ls2 =>
      simp only [joinCRLF]
      rw [splitCRLF_append l _ (hfree l (List.mem_cons_self _ _))]
      rw [ih (by simp) (fun p hp => hfree p (List.mem_cons_of_mem _ hp))]

theorem mVideo_eq_append : mVideoT = mEqT ++ "video".toList := by decide

theorem no_mEq_no_mVideo (l : List Char) (h : startsWith mEqT l = false) :
    startsWith mVideoT l = false := by
  by_contra hc
  rw [Bool.not_eq_false] at hc
  rw [mVideo_eq_append] at hc
  rw [startsWith_append_left _ _ _ hc] at h
  exact absurd h (by simp)

theorem stripVideoLines_subset (b : Bool) (ls : List (List Char)) :
    ∀ l ∈ stripVideoLines b ls, l ∈ ls := by
  induction ls generalizing b with
  | nil => simp [stripVideoLines]
  | cons x xs ih =>
    intro l hl
    simp only [stripVideoLines] at hl
    split at hl
    · exact List.mem_cons_of_mem _ (ih true l hl)
    · split at hl
      · rcases List.mem_cons.mp hl with h1 | h1
        · exact h1 ▸ List.mem_cons_self _ _
        · exact List.mem_cons_of_mem _ (ih false l h1)
      · split at hl
        · exact List.mem_cons_of_mem _ (ih b l hl)
        · rcases List.mem_cons.mp hl with h1 | h1
          · exact h1 ▸ List.mem_cons_self _ _
          · exact List.mem_cons_of_mem _ (ih b l h1)

theorem stripVideoLines_no_video (b : Bool) (ls : List (List Char)) :
    ∀ l ∈ stripVideoLines b ls, startsWith mVideoT l = false := by
  induction ls generalizing b with
  | nil => simp [stripVideoLines]
  | cons x xs ih =>
    intro l hl
    simp only [stripVideoLines] at hl
    split at hl
    · exact ih true l hl
    · rename_i hx
      split at hl
      · rcases List.mem_cons.mp hl with h1 | h1
        · exact h1 ▸ Bool.eq_false_iff.mpr hx
        · exact ih false l h1
      · split at hl
        · exact ih b l hl
        · rcases List.mem_cons.mp hl with h1 | h1
          · exact h1 ▸ Bool.eq_false_iff.mpr hx
          · exact ih b l h1

theorem stripVideoLines_id (ls : List (List Char))
    (h : ∀ l ∈ ls, startsWith mVideoT l = false) :
    stripVideoLines false ls = ls := by
  induction ls with
  | nil => simp [stripVideoLines]
  | cons x xs ih =>
    have hx := h x (List.mem_cons_self _ _)
    have ihx := ih (fun l hl => h l (List.mem_cons_of_mem _ hl))
    simp only [stripVideoLines, hx, Bool.false_eq_true, if_false]
    split
    · rw [ihx]
    · rw [ihx]

theorem stripVideoLines_append_clean (xs ys : List (List Char))
    (h : ∀ l ∈ xs, startsWith mVideoT l = false) :
    stripVideoLines false (xs ++ ys) = xs ++ stripVideoLines false ys := by
  induction xs with
  | nil => simp
  | cons x xs2 ih =>
    have hx := h x (List.mem_cons_self _ _)
    have ihx := ih (fun l hl => h l (List.mem_cons_of_mem _ hl))
    simp only [List.cons_append, stripVideoLines, hx, Bool.false_eq_true, if_false]
    split
    · simp only [List.append_eq]
      rw [ihx]
    · simp only [List.append_eq]
      rw [ihx]

theorem stripVideoLines_drop_body (xs ys : List (List Char))
    (h : ∀ l ∈ xs, startsWith mEqT l = false) :
    stripVideoLines true (xs ++ ys) = stripVideoLines true ys := by
  induction xs with
  | nil => simp
  | cons x xs2 ih =>
    have hx := h x (List.mem_cons_self _ _)
    have hxv := no_mEq_no_mVideo x hx
    simp only [List.cons_append, stripVideoLines, hxv, hx, Bool.false_eq_true, if_false,
      if_pos rfl]
    exact ih (fun l hl => h l (List.mem_cons_of_mem _ hl))

theorem stripVideoLines_exact (pre vBody post : List (List Char)) (vHdr : List Char)
    (hvid : startsWith mVideoT vHdr = true)
    (hpre : ∀ l ∈ pre, startsWith mVideoT l = false)
    (hbody : ∀ l ∈ vBody, startsWith mEqT l = false)
    (hpost : post = [] ∨ ∃ h2 t2, post = h2 :: t2 ∧ startsWith mEqT h2 = true
        ∧ startsWith mVideoT h2 = false)
    (hpost2 : ∀ l ∈ post, startsWith mVideoT l = false) :
    stripVideoLines false (pre ++ vHdr :: (vBody ++ post)) = pre ++ post := by
  rw [stripVideoLines_append_clean _ _ hpre]
  congr 1
  show stripVideoLines false (vHdr :: (vBody ++ post)) = post
  simp only [stripVideoLines, hvid, if_pos rfl]
  rw [stripVideoLines_drop_body _ _ hbody]
  rcases hpost with h1 | ⟨h2, t2, hp, hm, hv⟩
  · simp [h1, stripVideoLines]
  · subst hp
    simp only [stripVideoLines, hv, hm, Bool.false_eq_true, if_false, if_pos rfl]
    rw [stripVideoLines_id t2 (fun l hl => hpost2 l (List.mem_cons_of_mem _ hl))]
    simp

theorem stripVideoFromSdp_idem (s : List Char) :
    stripVideoFromSdp (stripVideoFromSdp s) = stripVideoFromSdp s := by
  unfold stripVideoFromSdp
  cases hout : stripVideoLines false (splitCRLF s) with
  | nil =>
    show joinCRLF (stripVideoLines false (splitCRLF (joinCRLF []))) = joinCRLF []
    simp [joinCRLF, splitCRLF, stripVideoLines]
  | cons m ms =>
    have hfree : ∀ p ∈ stripVideoLines false (splitCRLF s), crlfFree p = true :=
      fun p hp => crlfFree_splitCRLF s p (stripVideoLines_subset _ _ p hp)
    have hnv : ∀ p ∈ stripVideoLines false (splitCRLF s), startsWith mVideoT p = false :=
      stripVideoLines_no_video _ _
    rw [← hout]
    rw [splitCRLF_joinCRLF _ (by rw [hout]; simp) hfree]
    rw [stripVideoLines_id _ hnv]

theorem stripVideoFromSdpOpt_idem (x : Option (List Char)) :
    stripVideoFromSdpOpt (stripVideoFromSdpOpt x) = stripVideoFromSdpOpt x := by
  cases x with
  | none => rfl
  | some s =>
    by_cases hs : s = []
    · simp [stripVideoFromSdpOpt, hs]
    · simp only [stripVideoFromSdpOpt, if_neg hs]
      by_cases he : stripVideoFromSdp s = []
      · simp [he, stripVideoFromSdpOpt]
      · simp [stripVideoFromSdpOpt, he, stripVideoFromSdp_idem]

/-! ## Conversation loop lemmas -/

theorem runTurns_le (events : Nat → TurnEvent) (fuel tc : Nat) :
    (runTurns events fuel tc).1 ≤ tc + fuel := by
  induction fuel generalizing tc with
  | zero => simp [runTurns]
  | succ n ih =>
    cases ho : (turnStep (events tc)).1 with
    | goodbyeBreak =>
      simp only [runTurns, ho]
      omega
    | continueLoop =>
      have := ih (tc + 1)
      simp only [runTurns, ho]
      omega

theorem runTurns_no_break_count (events : Nat → TurnEvent) (fuel tc : Nat)
    (h : (runTurns events fuel tc).2.1 = false) :
    (runTurns events fuel tc).1 = tc + fuel := by
  induction fuel generalizing tc with
  | zero => simp [runTurns]
  | succ n ih =>
    cases ho : (turnStep (events tc)).1 with
    | goodbyeBreak =>
      simp only [runTurns, ho] at h
      simp at h
    | continueLoop =>
      simp only [runTurns, ho] at h ⊢
      have := ih (tc + 1) h
      omega

theorem transcribeSafe_append (cap : Bool) (xs ys : List Action) :
    transcribeSafe cap (xs ++ ys)
      = (transcribeSafe cap xs && transcribeSafe (capAfter cap xs) ys) := by
  induction xs generalizing cap with
  | nil => simp [transcribeSafe, capAfter]
  | cons a rest ih =>
    cases a <;> simp [transcribeSafe, capAfter, ih, Bool.and_assoc]

theorem turnStep_safe (ev : TurnEvent) (cap : Bool) :
    transcribeSafe cap (turnStep ev).2 = true ∧ capAfter cap (turnStep ev).2 = false := by
  cases ev with
  | timeout => simp [turnStep, transcribeSafe, capAfter]
  | utterance t r =>
    simp only [turnStep]
    split
    · simp [transcribeSafe, capAfter, transcribeSafe_append]
    · split
      · simp [transcribeSafe, capAfter, transcribeSafe_append]
      · simp [transcribeSafe, capAfter, transcribeSafe_append]

theorem runTurns_safe (events : Nat → TurnEvent) (fuel tc : Nat) (cap : Bool) :
    transcribeSafe cap (runTurns events fuel tc).2.2 = true := by
  induction fuel generalizing tc cap with
  | zero => simp [runTurns, transcribeSafe]
  | succ n ih =>
    simp only [runTurns]
    cases (turnStep (events tc)).1 with
    | goodbyeBreak => exact (turnStep_safe (events tc) cap).1
    | continueLoop =>
      simp only [transcribeSafe_append]
      rw [(turnStep_safe (events tc) cap).1, (turnStep_safe (events tc) cap).2]
      simp [ih]

theorem turnStep_no_cleanup (ev : TurnEvent) :
    ∀ a ∈ (turnStep ev).2, isCleanupAction a = false := by
  cases ev with
  | timeout =>
    intro a ha
    simp only [turnStep, List.mem_cons, List.not_mem_nil, or_false] at ha
    rcases ha with rfl | rfl | rfl | rfl | rfl <;> rfl
  | utterance t r =>
    intro a ha
    simp only [turnStep] at ha
    split at ha <;> [skip; split at ha] <;>
      · simp only [List.mem_append, List.mem_cons, List.not_mem_nil, or_false] at ha
        rcases ha with (rfl | rfl | rfl | rfl | rfl | rfl) | h2 <;>
          first
            | rfl
            | (rcases h2 with rfl | rfl | rfl | rfl | rfl <;> rfl)

theorem runTurns_no_cleanup (events : Nat → TurnEvent) (fuel tc : Nat) :
    ∀ a ∈ (runTurns events fuel tc).2.2, isCleanupAction a = false := by
  induction fuel generalizing tc with
  | zero => simp [runTurns]
  | succ n ih =>
    intro a ha
    cases ho : (turnStep (events tc)).1 with
    | goodbyeBreak =>
      simp only [runTurns, ho] at ha
      exact turnStep_no_cleanup (events tc) a ha
    | continueLoop =>
      simp only [runTurns, ho, List.mem_append] at ha
      rcases ha with h1 | h1
      · exact turnStep_no_cleanup (events tc) a h1
      · exact ih (tc + 1) a h1

theorem callBody_no_cleanup (events : Nat → TurnEvent) (mode : RunMode) :
    ∀ a ∈ callBody events mode, isCleanupAction a = false := by
  cases mode with
  | ok =>
    intro a ha
    simp only [callBody, List.mem_cons, List.mem_append] at ha
    rcases ha with rfl | h1 | h1
    · rfl
    · exact runTurns_no_cleanup events MAX_TURNS 0 a h1
    · split at h1
      · simp only [List.mem_cons, List.not_mem_nil, or_false] at h1
        subst h1; rfl
      · simp at h1
  | errBeforeFork =>
    intro a ha
    simp only [callBody, List.mem_cons, List.not_mem_nil, or_false] at ha
    subst ha; rfl
  | errInLoop n =>
    intro a ha
    simp only [callBody, List.mem_cons, List.mem_append, List.not_mem_nil, or_false] at ha
    rcases ha with rfl | h1 | rfl | rfl
    · rfl
    · exact runTurns_no_cleanup events (min n MAX_TURNS) 0 a h1
    · rfl
    · rfl

theorem splitWs_ne_nil (s : List Char) : splitWs s ≠ [] := by
  induction s with
  | nil => simp [splitWs]
  | cons c rest ih =>
    cases rest with
    | nil =>
      by_cases hc : isJsWs c = true <;> simp [splitWs, hc, consHead]
    | cons d ds =>
      by_cases hc : isJsWs c = true
      · by_cases hd : isJsWs d = true
        · simpa [splitWs, hc, hd] using ih
        · simp [splitWs, hc, hd]
      · have hstep : splitWs (c :: d :: ds) = consHead c (splitWs (d :: ds)) := by
          conv_lhs => rw [splitWs]
          rw [if_neg hc]
        rw [hstep]
        cases hs : splitWs (d :: ds) with
        | nil => exact absurd hs ih
        | cons m ms => simp [consHead]

theorem extractVoiceLine_fallback (r : List Char)
    (h1 : voiceAccepted r = false) (h2 : customAccepted r = false)
    (h3 : scanMatch matchCompletedAt r = none) :
    extractVoiceLine r = fallbackWords r := by
  have hc : tryCompleted r = fallbackWords r := by
    simp only [tryCompleted, h3]
  have hb : tryCustom r = fallbackWords r := by
    cases hs : scanMatch matchCustomAt r with
    | none => simp only [tryCustom, hs, hc]
    | some cap =>
      have hcond :
          ¬(cleanupVoiceText cap ≠ [] ∧ (splitWs (cleanupVoiceText cap)).length ≤ 50) := by
        intro hcond
        have h2x := h2
        simp only [customAccepted, hs, if_pos hcond] at h2x
        exact Bool.noConfusion h2x
      simp only [tryCustom, hs]
      rw [if_neg hcond, hc]
  cases hs : scanMatch matchVoiceAt r with
  | none => simp only [extractVoiceLine, hs, hb]
  | some cap =>
    have hcond :
        ¬(cleanupVoiceText cap ≠ [] ∧ (splitWs (cleanupVoiceText cap)).length ≤ 60) := by
      intro hcond
      have h1x := h1
      simp only [voiceAccepted, hs, if_pos hcond] at h1x
      exact Bool.noConfusion h1x
    simp only [extractVoiceLine, hs]
    rw [if_neg hcond, hb]

theorem not_cleanup_steps (a : Action) (h : isCleanupAction a = false) :
    isEndSessionStep a = false ∧ isForkStopStep a = false ∧
    isWebhookStep a = false ∧ isDestroyStep a = false := by
  cases a <;> simp_all [isCleanupAction, isEndSessionStep, isForkStopStep,
    isWebhookStep, isDestroyStep]

/-! ## Claim theorems -/

/-- C1 (amended): over every event stream, the turn counter never exceeds 20;
whenever it reaches 20 the fixed closing line is spoken; and whenever the loop
was not broken by a goodbye the counter equals 20 and the termination reason
is MAX_TURNS.  (The original claim fails when the caller says goodbye on turn
20: the loop exits through the goodbye break — reason CALLER_GOODBYE — yet the
closing line is still spoken, see the counterexample.) -/
theorem turn_loop_bound (events : Nat → TurnEvent) :
    (conversationLoopModel events).turnCount ≤ MAX_TURNS ∧
    ((conversationLoopModel events).turnCount = MAX_TURNS →
      Action.speak maxTurnsLine ∈ (conversationLoopModel events).actions) ∧
    ((conversationLoopModel events).brokeByGoodbye = false →
      (conversationLoopModel events).turnCount = MAX_TURNS ∧
      loopReason (conversationLoopModel events) = TermReason.MAX_TURNS) := by
  refine ⟨?_, ?_, ?_⟩
  · simpa [conversationLoopModel] using runTurns_le events MAX_TURNS 0
  · intro h
    simp only [conversationLoopModel] at h ⊢
    rw [if_pos (by omega)]
    simp
  · intro h
    simp only [conversationLoopModel, loopReason] at h ⊢
    refine ⟨by simpa using runTurns_no_break_count events MAX_TURNS 0 h, ?_⟩
    simp [h]

/-- C1 counterexample: with a goodbye on the twentieth turn the counter
reaches 20 but the call terminates through the goodbye break (reason
CALLER_GOODBYE, with the farewell line spoken), not with reason MAX_TURNS as
the claim states — although the fixed closing line is also spoken, because the
source checks only `turnCount >= MAX_TURNS` after the loop. -/
theorem goodbye_on_final_turn_counterexample :
    (conversationLoopModel evGoodbyeAt20).turnCount = MAX_TURNS ∧
    loopReason (conversationLoopModel evGoodbyeAt20) ≠ TermReason.MAX_TURNS ∧
    Action.speak maxTurnsLine ∈ (conversationLoopModel evGoodbyeAt20).actions ∧
    Action.speak farewellLine ∈ (conversationLoopModel evGoodbyeAt20).actions := by
  decide

/-- C1 witness: a call whose twenty turns all time out reaches the cap and
terminates with reason MAX_TURNS. -/
theorem turn_loop_bound_witness :
    (conversationLoopModel (fun _ => TurnEvent.timeout)).turnCount = MAX_TURNS ∧
    loopReason (conversationLoopModel (fun _ => TurnEvent.timeout))
      = TermReason.MAX_TURNS :=
  (turn_loop_bound (fun _ => TurnEvent.timeout)).2.2 (by decide)

/-- C2: for every session description whose split lines decompose into a
prefix without a video header, one video section (its `m=video` header and the
following lines up to the next media header), and the remaining lines, the
sanitizer output is exactly the other lines, in order, rejoined with the
original CRLF terminators; and sanitizing twice equals sanitizing once, for
every input (both on raw strings and through the falsy guard). -/
theorem stripVideo_exact_and_idempotent (sdp : List Char)
    (pre vBody post : List (List Char)) (vHdr : List Char)
    (hsplit : splitCRLF sdp = pre ++ vHdr :: (vBody ++ post))
    (hvid : startsWith mVideoT vHdr = true)
    (hpre : ∀ l ∈ pre, startsWith mVideoT l = false)
    (hbody : ∀ l ∈ vBody, startsWith mEqT l = false)
    (hpost : post = [] ∨ ∃ h2 t2, post = h2 :: t2 ∧ startsWith mEqT h2 = true
        ∧ startsWith mVideoT h2 = false)
    (hpost2 : ∀ l ∈ post, startsWith mVideoT l = false) :
    stripVideoFromSdp sdp = joinCRLF (pre ++ post) ∧
    (∀ s, stripVideoFromSdp (stripVideoFromSdp s) = stripVideoFromSdp s) ∧
    (∀ x, stripVideoFromSdpOpt (stripVideoFromSdpOpt x) = stripVideoFromSdpOpt x) := by
  refine ⟨?_, stripVideoFromSdp_idem, stripVideoFromSdpOpt_idem⟩
  unfold stripVideoFromSdp
  rw [hsplit, stripVideoLines_exact pre vBody post vHdr hvid hpre hbody hpost hpost2]

/-- C2 witness: a concrete session description with one video section between
two audio sections is sanitized to exactly the non-video lines. -/
theorem stripVideo_exact_witness :
    stripVideoFromSdp
        "v=0\r\nm=audio 7 RTP\r\na=one\r\nm=video 9 RTP\r\na=two\r\nm=audio 8 RTP\r\na=three".toList
      = joinCRLF (["v=0".toList, "m=audio 7 RTP".toList, "a=one".toList]
          ++ ["m=audio 8 RTP".toList, "a=three".toList]) :=
  (stripVideo_exact_and_idempotent
    "v=0\r\nm=audio 7 RTP\r\na=one\r\nm=video 9 RTP\r\na=two\r\nm=audio 8 RTP\r\na=three".toList
    ["v=0".toList, "m=audio 7 RTP".toList, "a=one".toList]
    ["a=two".toList]
    ["m=audio 8 RTP".toList, "a=three".toList]
    "m=video 9 RTP".toList
    (by decide) (by decide) (by decide) (by decide)
    (Or.inr ⟨"m=audio 8 RTP".toList, ["a=three".toList], rfl, by decide, by decide⟩)
    (by decide)).1

/-- C3 (amended): goodbye detection accepts a transcript exactly when some
goodbye phrase occurs in the normalized transcript with a separator (or the
start) on its LEFT — a right separator is required only for an occurrence at
the very start — and the cited examples behave as claimed ("ok bye", "bye",
"that's all" detected; "byebye" and "subvert" not).  (The original "separated
word, never a bare substring of a longer word" reading fails: a phrase
preceded by a space inside a longer word is detected, see the
counterexample.) -/
theorem isGoodbye_left_separator_characterization :
    (∀ t, isGoodbye t = true
      ↔ ∃ p ∈ goodbyePhrases, sepLeftOnly p (jsTrim (jsToLower t))) ∧
    isGoodbye "ok bye".toList = true ∧
    isGoodbye "bye".toList = true ∧
    isGoodbye "that's all".toList = true ∧
    isGoodbye "byebye".toList = false ∧
    isGoodbye "subvert".toList = false := by
  refine ⟨?_, by decide, by decide, by decide, by decide, by decide⟩
  intro t
  simp only [isGoodbye, List.any_eq_true]
  constructor
  · rintro ⟨p, hp, hc⟩
    exact ⟨p, hp, (goodbyeCheck_iff p _).mp hc⟩
  · rintro ⟨p, hp, hc⟩
    exact ⟨p, hp, (goodbyeCheck_iff p _).mpr hc⟩

/-- C3 counterexample: the transcript "say byes" is detected as a goodbye
(the code finds the substring " bye" via `includes(' ' + phrase)`) although no
goodbye phrase occurs in it as a separated word — "bye" is a bare substring of
the longer word "byes" (`sepBothSidesB` rejects every phrase at every split
point). -/
theorem isGoodbye_substring_counterexample :
    isGoodbye "say byes".toList = true ∧
    goodbyePhrases.all
      (fun p => !sepBothSidesB p (jsTrim (jsToLower "say byes".toList))) = true := by
  decide

/-- C4: in every loop iteration whose utterance wait times out, the turn
counter is still incremented, the iteration's trace is exactly the ready beep,
capture enable, the wait, capture disable, and the "didn't hear" prompt — and
control returns to the top of the loop (the run continues with the next
iteration's results unchanged), so the caught timeout never propagates past
the turn boundary. -/
theorem capture_timeout_recovery (events : Nat → TurnEvent) (fuel tc : Nat)
    (h : events tc = TurnEvent.timeout) :
    runTurns events (fuel + 1) tc =
      ((runTurns events fuel (tc + 1)).1,
       (runTurns events fuel (tc + 1)).2.1,
       [Action.playReadyBeep, Action.captureOn, Action.waitUtterance,
        Action.captureOff, Action.speak didntHearLine]
         ++ (runTurns events fuel (tc + 1)).2.2) := by
  simp only [runTurns, h, turnStep]

/-- C4 witness: a one-iteration run whose event is a timeout produces exactly
the timeout trace with the counter incremented to 1 and no goodbye break. -/
theorem capture_timeout_recovery_witness :
    runTurns (fun _ => TurnEvent.timeout) 1 0 =
      (1, false,
       [Action.playReadyBeep, Action.captureOn, Action.waitUtterance,
        Action.captureOff, Action.speak didntHearLine]) := by
  rw [capture_timeout_recovery (fun _ => TurnEvent.timeout) 0 0 rfl]
  rfl

/-- C5: device resolution never fails and selects, in order: the exact
registry match on the dialed identifier; the DEFAULT profile when the
identifier is present but unrecognized; the first configured profile when no
identifier is present; and the DEFAULT profile when none are configured. -/
theorem device_resolution_total (reg : DeviceRegistry) :
    (∀ ext p, reg.get ext = some p → resolveDevice reg (some ext) = p) ∧
    (∀ ext, reg.get ext = none → resolveDevice reg (some ext) = reg.getDefault) ∧
    (∀ e p rest, reg.allDevices = (e, p) :: rest → resolveDevice reg none = p) ∧
    (reg.allDevices = [] → resolveDevice reg none = reg.getDefault) := by
  refine ⟨?_, ?_, ?_, ?_⟩
  · intro ext p h
    simp [resolveDevice, h]
  · intro ext h
    simp [resolveDevice, h]
  · intro e p rest h
    simp [resolveDevice, h]
  · intro h
    simp [resolveDevice, h]

/-- C5 witness: on a concrete registry, a matching extension selects its
profile, an unknown extension selects the default, and a call without an
extension selects the first configured profile. -/
theorem device_resolution_witness :
    resolveDevice demoRegistry (some "9000") = demoProfile ∧
    resolveDevice demoRegistry (some "1234") = demoRegistry.getDefault ∧
    resolveDevice demoRegistry none = demoProfile :=
  ⟨(device_resolution_total demoRegistry).1 "9000" demoProfile (by decide),
   (device_resolution_total demoRegistry).2.1 "1234" (by decide),
   (device_resolution_total demoRegistry).2.2.1 "9000" demoProfile [] rfl⟩

/-- C6: voice-line extraction applied to the raw text
"🗣️ VOICE_RESPONSE: It's sunny today.\n🎯 COMPLETED: gave weather" returns
exactly "It's sunny today.". -/
theorem voice_line_extraction_example :
    extractVoiceLine responseC6 = "It's sunny today.".toList := by
  decide

/-- C7: over every event stream, the full call trace never contains a
transcription while capture is enabled — capture is disabled strictly before
every transcription. -/
theorem capture_disabled_before_transcription (events : Nat → TurnEvent) :
    transcribeSafe false (conversationLoopModel events).actions = true := by
  simp only [conversationLoopModel]
  show transcribeSafe false (Action.playGreeting :: _) = true
  rw [show ∀ l, transcribeSafe false (Action.playGreeting :: l) = transcribeSafe false l
      from fun l => rfl]
  rw [transcribeSafe_append]
  rw [runTurns_safe]
  simp only [Bool.true_and]
  split <;> simp [transcribeSafe]

/-- C8: for every event stream, every exit mode of the loop body (normal
completion, an error before the fork started, or an error mid-loop) and every
combination of cleanup-step failures, the trace of a full call performs the
query-session release, the transcript flush and the resource release exactly
once each, and the fork stop exactly once if and only if the fork was started
— the steps are attempted regardless of each other's failure, and the cleanup
block follows the body. -/
theorem cleanup_exactly_once (events : Nat → TurnEvent) (mode : RunMode)
    (cf : CleanupFails) :
    (fullCall events mode cf).countP isEndSessionStep = 1 ∧
    (fullCall events mode cf).countP isForkStopStep
      = (if forkStarted mode then 1 else 0) ∧
    (fullCall events mode cf).countP isWebhookStep = 1 ∧
    (fullCall events mode cf).countP isDestroyStep = 1 ∧
    fullCall events mode cf
      = callBody events mode ++ cleanupActions (forkStarted mode) cf := by
  have hmem := callBody_no_cleanup events mode
  have h1 : (callBody events mode).countP isEndSessionStep = 0 := by
    rw [List.countP_eq_zero]
    intro a ha
    simp [(not_cleanup_steps a (hmem a ha)).1]
  have h2 : (callBody events mode).countP isForkStopStep = 0 := by
    rw [List.countP_eq_zero]
    intro a ha
    simp [(not_cleanup_steps a (hmem a ha)).2.1]
  have h3 : (callBody events mode).countP isWebhookStep = 0 := by
    rw [List.countP_eq_zero]
    intro a ha
    simp [(not_cleanup_steps a (hmem a ha)).2.2.1]
  have h4 : (callBody events mode).countP isDestroyStep = 0 := by
    rw [List.countP_eq_zero]
    intro a ha
    simp [(not_cleanup_steps a (hmem a ha)).2.2.2]
  refine ⟨?_, ?_, ?_, ?_, rfl⟩ <;>
    · unfold fullCall
      rw [List.countP_append]
      cases hf : forkStarted mode <;>
        simp [cleanupActions, List.countP_cons, h1, h2, h3, h4,
          isEndSessionStep, isForkStopStep, isWebhookStep, isDestroyStep]

/-- C9: for every raw response in which no marked line yields an accepted
value (no accepted VOICE_RESPONSE line, no accepted CUSTOM COMPLETED line, no
COMPLETED match), extraction returns the first at-most-120 whitespace tokens
of the raw text with the markup characters stripped, joined by spaces; the
500-character fallback would be returned only if that token list were empty —
and it never is, because a JavaScript split always yields at least one
(possibly empty) token. -/
theorem extract_token_fallback (r : List Char)
    (h1 : voiceAccepted r = false) (h2 : customAccepted r = false)
    (h3 : scanMatch matchCompletedAt r = none) :
    ((splitWs (jsTrim (r.filter (fun c => !isMarkupChar c)))).take 120 ≠ [] →
      extractVoiceLine r
        = joinSpace ((splitWs (jsTrim (r.filter (fun c => !isMarkupChar c)))).take 120)) ∧
    ((splitWs (jsTrim (r.filter (fun c => !isMarkupChar c)))).take 120 = [] →
      extractVoiceLine r = jsTrim (r.take 500)) ∧
    (splitWs (jsTrim (r.filter (fun c => !isMarkupChar c)))).take 120 ≠ [] := by
  have he := extractVoiceLine_fallback r h1 h2 h3
  have hne : (splitWs (jsTrim (r.filter (fun c => !isMarkupChar c)))).take 120 ≠ [] := by
    have := splitWs_ne_nil (jsTrim (r.filter (fun c => !isMarkupChar c)))
    simp [List.take_eq_nil_iff, this]
  refine ⟨?_, ?_, hne⟩
  · intro hw
    rw [he]
    unfold fallbackWords
    rw [if_pos (by simpa [List.length_pos] using hne)]
  · intro hw
    exact absurd hw hne

/-- C9 witness: a plain response with no marked lines is returned as its own
first tokens. -/
theorem extract_token_fallback_witness :
    extractVoiceLine "Hello *there* #friend".toList = "Hello there friend".toList := by
  have h := (extract_token_fallback "Hello *there* #friend".toList
    (by decide) (by decide) (by decide)).1 (by decide)
  rw [h]
  decide

/-- C10: the sanitizer returns every falsy argument unchanged without parsing
it (null/undefined, modelled as `none`, and the empty string), and is total
over all string-or-null inputs by construction. -/
theorem stripVideo_falsy_total (x : Option (List Char))
    (h : x = none ∨ x = some []) : stripVideoFromSdpOpt x = x := by
  rcases h with rfl | rfl
  · rfl
  · rfl

/-- C10 witness: both falsy inputs are returned unchanged. -/
theorem stripVideo_falsy_witness :
    stripVideoFromSdpOpt none = none ∧ stripVideoFromSdpOpt (some []) = some [] :=
  ⟨stripVideo_falsy_total none (Or.inl rfl),
   stripVideo_falsy_total (some []) (Or.inr rfl)⟩

end ClaudePhone
